import Mathlib

/-!
Shallow embedding of the fuzzy-computation core of the `zotoi_lr1` repository
(files `src/src/App.tsx` and `src/unnamed/part_000`).  Numbers are modelled by
the rationals; TypeScript optional string fields are modelled by `Option String`
(the UI stores an absent selection as `undefined` / the empty string, which the
cell-save handler converts to `undefined`).

The two source files are two revisions of the same component.  They share the
canonicalizer (`orderTriangular`), the interval-expansion logic
(`handleTransformToIntervals`), the trapezoid aggregation
(`getTrapezeFromLTSets` / `handleTransformToTrapeze`) and the alpha-cut
(`getIntervalFromTrapeze`), but they diverge in two places:

* `calculateProbability`: `App.tsx` uses the three-branch rule
  (`l >= 0 -> 1`, `r <= 0 -> 0`, otherwise `r / (r - l)`), while `part_000`
  uses the closed form `max(1 - max((1 - l) / (r - l + 1), 0), 0)`.
* the `generalized` branch of `handleCalculateMethod`: `App.tsx` averages the
  row's trapezoids componentwise before alpha-cutting, while `part_000`
  combines them into the min/min/max/max envelope before alpha-cutting.

Both variants are embedded under distinct names.
-/

namespace Zotoi

/-- `type TriangularNumber = { left, middle, right }` from the source. -/
structure TriangularNumber where
  left : ℚ
  middle : ℚ
  right : ℚ
deriving DecidableEq, Repr

/-- `type LinguisticTerm = { name, shortName, tri }` from the source. -/
structure LinguisticTerm where
  name : String
  shortName : String
  tri : TriangularNumber
deriving DecidableEq, Repr

/-- `type CellValue = { from?: string; to?: string }` from the source.
`from` is a reserved word in Lean, so the fields are called `fromTerm` and
`toTerm`; `none` models an absent (`undefined`) reference. -/
structure CellValue where
  fromTerm : Option String
  toTerm : Option String
deriving DecidableEq, Repr

/-- `type Trapeze = { a, b, c, d }` from the source. -/
structure Trapeze where
  a : ℚ
  b : ℚ
  c : ℚ
  d : ℚ
deriving DecidableEq, Repr

/-- `type Interval = { l, r }` from the source. -/
structure Interval where
  l : ℚ
  r : ℚ
deriving DecidableEq, Repr

/-- `orderTriangular` (identical in `App.tsx` lines 135-141 and `part_000`
lines 135-141): `left = Math.min(l, m, r)`, `right = Math.max(l, m, r)`,
`middle = Math.max(left, Math.min(right, sum - left - right))`. -/
def orderTriangular (t : TriangularNumber) : TriangularNumber :=
  let left := min t.left (min t.middle t.right)
  let right := max t.left (max t.middle t.right)
  let sum := t.left + t.middle + t.right
  let middle := max left (min right (sum - left - right))
  ⟨left, middle, right⟩

lemma orderTriangular_left_le_middle (t : TriangularNumber) :
    (orderTriangular t).left ≤ (orderTriangular t).middle :=
  le_max_left _ _

lemma orderTriangular_left_le_right (t : TriangularNumber) :
    (orderTriangular t).left ≤ (orderTriangular t).right :=
  (min_le_left _ _).trans (le_max_left _ _)

lemma orderTriangular_middle_le_right (t : TriangularNumber) :
    (orderTriangular t).middle ≤ (orderTriangular t).right :=
  max_le (orderTriangular_left_le_right t) (min_le_left _ _)

lemma orderTriangular_of_sorted (l m r : ℚ) (h1 : l ≤ m) (h2 : m ≤ r) :
    orderTriangular ⟨l, m, r⟩ = ⟨l, m, r⟩ := by
  unfold orderTriangular
  simp only
  have hmin : min l (min m r) = l := min_eq_left (le_min h1 (h1.trans h2))
  have hmax : max l (max m r) = r := by
    rw [max_eq_right h2, max_eq_right (h1.trans h2)]
  rw [hmin, hmax]
  have hmid : l + m + r - l - r = m := by ring
  rw [hmid, min_eq_right h2, max_eq_right h1]

lemma orderTriangular_idem (t : TriangularNumber) :
    orderTriangular (orderTriangular t) = orderTriangular t :=
  orderTriangular_of_sorted _ _ _ (orderTriangular_left_le_middle t)
    (orderTriangular_middle_le_right t)

/-- `Math.min(x0, x1, ..., xn)` over a non-empty argument list, modelled as a
left fold of the binary minimum starting from the first argument (this is how
the source's `Math.min(...xs)` spread behaves on a non-empty array). -/
def listMinQ (x : ℚ) (xs : List ℚ) : ℚ :=
  xs.foldl min x

/-- `Math.max(x0, x1, ..., xn)` over a non-empty argument list. -/
def listMaxQ (x : ℚ) (xs : List ℚ) : ℚ :=
  xs.foldl max x

lemma listMinQ_le_init (x : ℚ) (xs : List ℚ) : listMinQ x xs ≤ x := by
  induction xs generalizing x with
  | nil => exact le_refl x
  | cons y ys ih =>
      calc listMinQ x (y :: ys) = listMinQ (min x y) ys := rfl
        _ ≤ min x y := ih (min x y)
        _ ≤ x := min_le_left _ _

lemma init_le_listMaxQ (x : ℚ) (xs : List ℚ) : x ≤ listMaxQ x xs := by
  induction xs generalizing x with
  | nil => exact le_refl x
  | cons y ys ih =>
      calc x ≤ max x y := le_max_left _ _
        _ ≤ listMaxQ (max x y) ys := ih (max x y)
        _ = listMaxQ x (y :: ys) := rfl

lemma listMinQ_le_of_mem (x z : ℚ) (xs : List ℚ) (hz : z ∈ x :: xs) :
    listMinQ x xs ≤ z := by
  induction xs generalizing x with
  | nil =>
      rw [List.mem_singleton] at hz
      exact hz ▸ le_refl x
  | cons y ys ih =>
      rcases List.mem_cons.mp hz with h | h
      · exact h ▸ (listMinQ_le_init (min x y) ys).trans (min_le_left _ _)
      · rcases List.mem_cons.mp h with h' | h'
        · exact h' ▸ (listMinQ_le_init (min x y) ys).trans (min_le_right _ _)
        · exact ih (min x y) (List.mem_cons_of_mem _ h')

lemma le_listMaxQ_of_mem (x z : ℚ) (xs : List ℚ) (hz : z ∈ x :: xs) :
    z ≤ listMaxQ x xs := by
  induction xs generalizing x with
  | nil =>
      rw [List.mem_singleton] at hz
      exact hz ▸ le_refl x
  | cons y ys ih =>
      rcases List.mem_cons.mp hz with h | h
      · exact h ▸ (le_max_left x y).trans (init_le_listMaxQ (max x y) ys)
      · rcases List.mem_cons.mp h with h' | h'
        · exact h' ▸ (le_max_right x y).trans (init_le_listMaxQ (max x y) ys)
        · exact ih (max x y) (List.mem_cons_of_mem _ h')

lemma listMinQ_mem (x : ℚ) (xs : List ℚ) : listMinQ x xs ∈ x :: xs := by
  induction xs generalizing x with
  | nil => exact List.mem_singleton.mpr rfl
  | cons y ys ih =>
      have h := ih (min x y)
      rcases List.mem_cons.mp h with h' | h'
      · rcases min_choice x y with hc | hc
        · exact List.mem_cons.mpr (Or.inl (h'.trans hc))
        · exact List.mem_cons_of_mem _ (List.mem_cons.mpr (Or.inl (h'.trans hc)))
      · exact List.mem_cons_of_mem _ (List.mem_cons_of_mem _ h')

lemma listMaxQ_mem (x : ℚ) (xs : List ℚ) : listMaxQ x xs ∈ x :: xs := by
  induction xs generalizing x with
  | nil => exact List.mem_singleton.mpr rfl
  | cons y ys ih =>
      have h := ih (max x y)
      rcases List.mem_cons.mp h with h' | h'
      · rcases max_choice x y with hc | hc
        · exact List.mem_cons.mpr (Or.inl (h'.trans hc))
        · exact List.mem_cons_of_mem _ (List.mem_cons.mpr (Or.inl (h'.trans hc)))
      · exact List.mem_cons_of_mem _ (List.mem_cons_of_mem _ h')

lemma listMinQ_mono (x y : ℚ) (xs ys : List ℚ) (hxy : x ≤ y)
    (h : List.Forall₂ (· ≤ ·) xs ys) : listMinQ x xs ≤ listMinQ y ys := by
  induction h generalizing x y with
  | nil => exact hxy
  | cons hab _ ih => exact ih (min x _) (min y _) (min_le_min hxy hab)

lemma listMaxQ_mono (x y : ℚ) (xs ys : List ℚ) (hxy : x ≤ y)
    (h : List.Forall₂ (· ≤ ·) xs ys) : listMaxQ x xs ≤ listMaxQ y ys := by
  induction h generalizing x y with
  | nil => exact hxy
  | cons hab _ ih => exact ih (max x _) (max y _) (max_le_max hxy hab)

lemma listMinQ_le_listMaxQ (x : ℚ) (xs : List ℚ) : listMinQ x xs ≤ listMaxQ x xs :=
  (listMinQ_le_init x xs).trans (init_le_listMaxQ x xs)

/-- JavaScript `names.indexOf(s)`: position of the first occurrence, `none`
modelling the `-1` result for an absent element. -/
def indexOfName : List String → String → Option Nat
  | [], _ => none
  | n :: ns, s => if n = s then some 0 else (indexOfName ns s).map (· + 1)

lemma indexOfName_lt_length {ns : List String} {s : String} {i : Nat}
    (h : indexOfName ns s = some i) : i < ns.length := by
  induction ns generalizing i with
  | nil => simp [indexOfName] at h
  | cons n ns ih =>
      rw [indexOfName] at h
      by_cases hn : n = s
      · rw [if_pos hn, Option.some.injEq] at h
        simp only [List.length_cons]
        omega
      · rw [if_neg hn, Option.map_eq_some'] at h
        obtain ⟨j, hj, hji⟩ := h
        have := ih hj
        simp only [List.length_cons]
        omega

/-- The per-cell body of `handleTransformToIntervals` (`App.tsx` lines
326-349, `part_000` lines 336-382): maps one judgment cell to its covered
slice of the registry's short-name order.  Note the crisp branch
(`from && from === to`) returns `[from]` without any registry lookup. -/
def expandCell (termShortNames : List String) (cell : CellValue) : List String :=
  match cell.fromTerm, cell.toTerm with
  | none, none => []
  | some f, some t =>
      if f = t then [f]
      else
        match indexOfName termShortNames f, indexOfName termShortNames t with
        | some startIndex, some endIndex =>
            (termShortNames.take (max startIndex endIndex + 1)).drop
              (min startIndex endIndex)
        | _, _ => []
  | some f, none =>
      match indexOfName termShortNames f with
      | some startIndex => termShortNames.drop startIndex
      | none => []
  | none, some t =>
      match indexOfName termShortNames t with
      | some endIndex => termShortNames.take (endIndex + 1)
      | none => []

/-- The `triangularTerms` list built inside `getTrapezeFromLTSets`: the looked
up triangular numbers of the covered short names, with unresolved names
silently dropped (`.map(find ...?.tri).filter(!!tri)`). -/
def resolvedTris (ltShortNames : List String) (allTerms : List LinguisticTerm) :
    List TriangularNumber :=
  ltShortNames.filterMap
    (fun shortName => (allTerms.find? (fun t => t.shortName == shortName)).map
      LinguisticTerm.tri)

/-- `getTrapezeFromLTSets` (`App.tsx` lines 143-167, `part_000` lines
143-172): `null` for an empty name list or when nothing resolves; otherwise
the min/min/max/max aggregate of the canonicalized triangular numbers. -/
def getTrapezeFromLTSets (ltShortNames : List String)
    (allTerms : List LinguisticTerm) : Option Trapeze :=
  match ltShortNames with
  | [] => none
  | _ :: _ =>
      match resolvedTris ltShortNames allTerms with
      | [] => none
      | tri0 :: rest =>
          let o := orderTriangular tri0
          let os := rest.map orderTriangular
          some
            { a := listMinQ o.left (os.map TriangularNumber.left)
              b := listMinQ o.middle (os.map TriangularNumber.middle)
              c := listMaxQ o.middle (os.map TriangularNumber.middle)
              d := listMaxQ o.right (os.map TriangularNumber.right) }

/-- The per-cell body of `handleTransformToTrapeze` (`App.tsx` lines 366-372,
`part_000` lines 399-412): a failed aggregation becomes the zero trapezoid. -/
def cellTrapeze (ltShortNames : List String) (allTerms : List LinguisticTerm) :
    Trapeze :=
  (getTrapezeFromLTSets ltShortNames allTerms).getD ⟨0, 0, 0, 0⟩

/-- `getIntervalFromTrapeze` (`App.tsx` lines 381-389, `part_000` lines
422-434): the alpha-cut `[alpha*b + (1-alpha)*a, alpha*c + (1-alpha)*d]`. -/
def getIntervalFromTrapeze (trapeze : Trapeze) (alpha : ℚ) : Interval :=
  { l := alpha * trapeze.b + (1 - alpha) * trapeze.a
    r := alpha * trapeze.c + (1 - alpha) * trapeze.d }

/-- `calculateProbability` of `App.tsx` (lines 391-397): the three-branch
dominance rule with a defensive fourth branch for `r ≤ l`. -/
def calculateProbability (interval : Interval) : ℚ :=
  if interval.l ≥ 0 then 1
  else if interval.r ≤ 0 then 0
  else if interval.r > interval.l then interval.r / (interval.r - interval.l)
  else 0

/-- `calculateProbability` of `part_000` (lines 438-444): the closed form
`max(1 - max((1 - l) / (r - l + 1), 0), 0)`. -/
def calculateProbabilityClosed (interval : Interval) : ℚ :=
  max (1 - max ((1 - interval.l) / (interval.r - interval.l + 1)) 0) 0

/-- The `generalized` branch of `handleCalculateMethod` in `App.tsx` (lines
416-438): sum the row's trapezoids componentwise (a `reduce` with the zero
trapezoid as initial accumulator), divide by the criteria count, alpha-cut
the average and score it with the three-branch probability. -/
def generalizedAvgResult (row : List Trapeze) (numCriterias : Nat) (alpha : ℚ) :
    Interval × ℚ :=
  let sumTrapeze := row.foldl
    (fun acc T => ⟨acc.a + T.a, acc.b + T.b, acc.c + T.c, acc.d + T.d⟩)
    (⟨0, 0, 0, 0⟩ : Trapeze)
  let avg : Trapeze :=
    ⟨sumTrapeze.a / numCriterias, sumTrapeze.b / numCriterias,
      sumTrapeze.c / numCriterias, sumTrapeze.d / numCriterias⟩
  let finalInterval := getIntervalFromTrapeze avg alpha
  (finalInterval, calculateProbability finalInterval)

/-- The combined trapezoid `T_i_combined` of the `generalized` branch of
`handleCalculateMethod` in `part_000` (lines 484-502):
`Math.min(...a)`, `Math.min(...b)`, `Math.max(...c)`, `Math.max(...d)` over
the non-empty row `trap0 :: rest`. -/
def combineGeneralized (trap0 : Trapeze) (rest : List Trapeze) : Trapeze :=
  { a := listMinQ trap0.a (rest.map Trapeze.a)
    b := listMinQ trap0.b (rest.map Trapeze.b)
    c := listMaxQ trap0.c (rest.map Trapeze.c)
    d := listMaxQ trap0.d (rest.map Trapeze.d) }

/-- The full `generalized` branch of `part_000` (lines 481-513) for one
alternative: an empty criteria row is skipped (`continue`), otherwise the
envelope is alpha-cut and scored with the closed-form probability. -/
def generalizedEnvelopeResult (row : List Trapeze) (alpha : ℚ) :
    Option (Interval × ℚ) :=
  match row with
  | [] => none
  | trap0 :: rest =>
      let T := combineGeneralized trap0 rest
      let finalInterval := getIntervalFromTrapeze T alpha
      some (finalInterval, calculateProbabilityClosed finalInterval)

/-- `isAllCellsFilled` (`App.tsx` lines 313-315): every cell has `from` or
`to` set. -/
def isAllCellsFilled (tableData : List (List CellValue)) : Bool :=
  tableData.all
    (fun row => row.all (fun cell => cell.fromTerm.isSome || cell.toTerm.isSome))

/-- `DisplayResult` from the source: optional per-method results. -/
structure DisplayResult where
  genInterval : Option Interval
  genProbability : Option ℚ
  pessInterval : Option Interval
  pessProbability : Option ℚ
  optInterval : Option Interval
  optProbability : Option ℚ
deriving DecidableEq, Repr

/-- The slice of React component state that `handleTransformToIntervals`
reads or writes: the term registry, the judgment matrix, and the derived
artifacts downstream of interval expansion. -/
structure AppState where
  terms : List LinguisticTerm
  tableData : List (List CellValue)
  internalIntervalLTSets : List (List (List String))
  internalTrapezeMatrix : List (List Trapeze)
  isTransformedToIntervals : Bool
  isTransformedToTrapeze : Bool
  displayResults : List DisplayResult
  bestProbability : Option ℚ
deriving DecidableEq, Repr

/-- `handleTransformToIntervals` (`App.tsx` lines 317-358, `part_000` lines
325-391): refuse (return the state unchanged) when some cell is unfilled or
no terms exist; otherwise expand every cell and reset the later stages. -/
def handleTransformToIntervals (s : AppState) : AppState :=
  if ¬ (isAllCellsFilled s.tableData = true) ∨ s.terms.length = 0 then s
  else
    let termShortNames := s.terms.map LinguisticTerm.shortName
    let intervalLTSets := s.tableData.map
      (fun row => row.map (expandCell termShortNames))
    { s with
        internalIntervalLTSets := intervalLTSets
        isTransformedToIntervals := true
        isTransformedToTrapeze := false
        displayResults := []
        bestProbability := none }

/-- The five-term registry of the specification's end-to-end scenario. -/
def scenarioTerms : List LinguisticTerm :=
  [⟨"VeryLow", "VeryLow", ⟨-1, -1, -1/2⟩⟩,
   ⟨"Low", "Low", ⟨-1, -1/2, 0⟩⟩,
   ⟨"Medium", "Medium", ⟨-1/2, 0, 1/2⟩⟩,
   ⟨"High", "High", ⟨0, 1/2, 1⟩⟩,
   ⟨"VeryHigh", "VeryHigh", ⟨1/2, 1, 1⟩⟩]

lemma orderTriangular_eval (a b c mn mx : ℚ) (hmn : min a (min b c) = mn)
    (hmx : max a (max b c) = mx) (hle1 : mn ≤ a + b + c - mn - mx)
    (hle2 : a + b + c - mn - mx ≤ mx) :
    orderTriangular ⟨a, b, c⟩ = ⟨mn, a + b + c - mn - mx, mx⟩ := by
  unfold orderTriangular
  simp only
  rw [hmn, hmx, min_eq_right hle2, max_eq_right hle1]

lemma ms_swap12 (x y z : ℚ) :
    (x ::ₘ y ::ₘ z ::ₘ 0 : Multiset ℚ) = y ::ₘ x ::ₘ z ::ₘ 0 :=
  Multiset.cons_swap x y _

lemma ms_swap23 (x y z : ℚ) :
    (x ::ₘ y ::ₘ z ::ₘ 0 : Multiset ℚ) = x ::ₘ z ::ₘ y ::ₘ 0 :=
  congrArg (x ::ₘ ·) (Multiset.cons_swap y z _)

/-- C6: canonicalization is idempotent — for every input triple `t`,
`orderTriangular (orderTriangular t) = orderTriangular t` — and its result
always satisfies `left ≤ middle ≤ right`.  (All rationals model the finite
floating-point inputs.) -/
theorem claim_C6_canonicalization_idempotent (t : TriangularNumber) :
    orderTriangular (orderTriangular t) = orderTriangular t ∧
    (orderTriangular t).left ≤ (orderTriangular t).middle ∧
    (orderTriangular t).middle ≤ (orderTriangular t).right :=
  ⟨orderTriangular_idem t, orderTriangular_left_le_middle t,
    orderTriangular_middle_le_right t⟩

lemma orderTriangular_case (a b c mn mx : ℚ) (hmn : min a (min b c) = mn)
    (hmx : max a (max b c) = mx) (h1 : mn ≤ a + b + c - mn - mx)
    (h2 : a + b + c - mn - mx ≤ mx) :
    ((orderTriangular ⟨a, b, c⟩).left ::ₘ (orderTriangular ⟨a, b, c⟩).middle ::ₘ
        (orderTriangular ⟨a, b, c⟩).right ::ₘ 0 : Multiset ℚ) =
      mn ::ₘ (a + b + c - mn - mx) ::ₘ mx ::ₘ 0 ∧
    (orderTriangular ⟨a, b, c⟩).middle =
      a + b + c - min a (min b c) - max a (max b c) := by
  have heq := orderTriangular_eval a b c mn mx hmn hmx h1 h2
  constructor
  · rw [heq]
  · rw [heq, hmn, hmx]

/-- C7: canonicalization is a permutation — the multiset of components of
`orderTriangular t` equals the multiset of components of `t`, and the middle
(sum minus extremes, with the defensive clamp being a no-op over exact
arithmetic) is exactly the median of the three inputs. -/
theorem claim_C7_canonicalization_permutation (t : TriangularNumber) :
    ((orderTriangular t).left ::ₘ (orderTriangular t).middle ::ₘ
        (orderTriangular t).right ::ₘ 0 : Multiset ℚ) =
      t.left ::ₘ t.middle ::ₘ t.right ::ₘ 0 ∧
    (orderTriangular t).middle =
      t.left + t.middle + t.right - min t.left (min t.middle t.right) -
        max t.left (max t.middle t.right) := by
  obtain ⟨a, b, c⟩ := t
  rcases le_total a b with hab | hab <;> rcases le_total b c with hbc | hbc <;>
    rcases le_total a c with hac | hac
  · -- a ≤ b ≤ c
    have hmn : min a (min b c) = a := by rw [min_eq_left hbc, min_eq_left hab]
    have hmx : max a (max b c) = c := by
      rw [max_eq_right hbc, max_eq_right hac]
    obtain ⟨hperm, hmed⟩ := orderTriangular_case a b c a c hmn hmx
      (by linarith) (by linarith)
    refine ⟨?_, hmed⟩
    rw [hperm]
    have hmid : a + b + c - a - c = b := by ring
    rw [hmid]
  · -- a ≤ b, b ≤ c, c ≤ a : all three values are equal
    have hmn : min a (min b c) = a := by rw [min_eq_left hbc, min_eq_left hab]
    have hmx : max a (max b c) = a := by
      rw [max_eq_right hbc, max_eq_left hac]
    obtain ⟨hperm, hmed⟩ := orderTriangular_case a b c a a hmn hmx
      (by linarith) (by linarith)
    refine ⟨?_, hmed⟩
    rw [hperm]
    have hba : b = a := le_antisymm (hbc.trans hac) hab
    have hca : c = a := le_antisymm hac (hab.trans hbc)
    rw [hba, hca]
    have hmid : a + a + a - a - a = a := by ring
    rw [hmid]
  · -- a ≤ b, c ≤ b, a ≤ c
    have hmn : min a (min b c) = a := by rw [min_eq_right hbc, min_eq_left hac]
    have hmx : max a (max b c) = b := by rw [max_eq_left hbc, max_eq_right hab]
    obtain ⟨hperm, hmed⟩ := orderTriangular_case a b c a b hmn hmx
      (by linarith) (by linarith)
    refine ⟨?_, hmed⟩
    rw [hperm]
    have hmid : a + b + c - a - b = c := by ring
    rw [hmid]
    exact ms_swap23 a c b
  · -- a ≤ b, c ≤ b, c ≤ a
    have hmn : min a (min b c) = c := by rw [min_eq_right hbc, min_eq_right hac]
    have hmx : max a (max b c) = b := by rw [max_eq_left hbc, max_eq_right hab]
    obtain ⟨hperm, hmed⟩ := orderTriangular_case a b c c b hmn hmx
      (by linarith) (by linarith)
    refine ⟨?_, hmed⟩
    rw [hperm]
    have hmid : a + b + c - c - b = a := by ring
    rw [hmid]
    exact (ms_swap12 c a b).trans (ms_swap23 a c b)
  · -- b ≤ a, b ≤ c, a ≤ c
    have hmn : min a (min b c) = b := by rw [min_eq_left hbc, min_eq_right hab]
    have hmx : max a (max b c) = c := by
      rw [max_eq_right hbc, max_eq_right hac]
    obtain ⟨hperm, hmed⟩ := orderTriangular_case a b c b c hmn hmx
      (by linarith) (by linarith)
    refine ⟨?_, hmed⟩
    rw [hperm]
    have hmid : a + b + c - b - c = a := by ring
    rw [hmid]
    exact ms_swap12 b a c
  · -- b ≤ a, b ≤ c, c ≤ a
    have hmn : min a (min b c) = b := by rw [min_eq_left hbc, min_eq_right hab]
    have hmx : max a (max b c) = a := by
      rw [max_eq_right hbc, max_eq_left hac]
    obtain ⟨hperm, hmed⟩ := orderTriangular_case a b c b a hmn hmx
      (by linarith) (by linarith)
    refine ⟨?_, hmed⟩
    rw [hperm]
    have hmid : a + b + c - b - a = c := by ring
    rw [hmid]
    exact (ms_swap23 b c a).trans (ms_swap12 b a c)
  · -- b ≤ a, c ≤ b, a ≤ c : all three values are equal
    have hmn : min a (min b c) = a := by rw [min_eq_right hbc, min_eq_left hac]
    have hmx : max a (max b c) = a := by
      rw [max_eq_left hbc, max_eq_left hab]
    obtain ⟨hperm, hmed⟩ := orderTriangular_case a b c a a hmn hmx
      (by linarith) (by linarith)
    refine ⟨?_, hmed⟩
    rw [hperm]
    have hba : b = a := le_antisymm hab (hac.trans hbc)
    have hca : c = a := le_antisymm (hbc.trans hab) hac
    rw [hba, hca]
    have hmid : a + a + a - a - a = a := by ring
    rw [hmid]
  · -- b ≤ a, c ≤ b, c ≤ a
    have hmn : min a (min b c) = c := by rw [min_eq_right hbc, min_eq_right hac]
    have hmx : max a (max b c) = a := by
      rw [max_eq_left hbc, max_eq_left hab]
    obtain ⟨hperm, hmed⟩ := orderTriangular_case a b c c a hmn hmx
      (by linarith) (by linarith)
    refine ⟨?_, hmed⟩
    rw [hperm]
    have hmid : a + b + c - c - a = b := by ring
    rw [hmid]
    exact ((ms_swap12 c b a).trans (ms_swap23 b c a)).trans (ms_swap12 b a c)

/-- C1 (amended): for every interval with `l ≤ r`, the `calculateProbability`
of `App.tsx` computes the three-branch rule — `1` when `l ≥ 0`, `0` when
`r ≤ 0`, and `r / (r - l)` when the interval straddles zero; the duplicate
`calculateProbability` in `part_000` uses a different closed form and
disagrees on straddling intervals. -/
theorem claim_C1_probability_three_branch (I : Interval) (_h : I.l ≤ I.r) :
    calculateProbability I =
      if 0 ≤ I.l then 1 else if I.r ≤ 0 then 0 else I.r / (I.r - I.l) := by
  unfold calculateProbability
  rcases le_or_lt 0 I.l with h0 | h0
  · rw [if_pos h0, if_pos h0]
  · rw [if_neg (not_le.mpr h0), if_neg (not_le.mpr h0)]
    rcases le_or_lt I.r 0 with h1 | h1
    · rw [if_pos h1, if_pos h1]
    · rw [if_neg (not_le.mpr h1), if_neg (not_le.mpr h1),
        if_pos (show I.r > I.l from h0.trans h1)]

/-- Witness for C1 at the concrete straddling interval `{l := -1, r := 2}`. -/
theorem claim_C1_probability_three_branch_witness :
    calculateProbability ⟨-1, 2⟩ =
      if (0 : ℚ) ≤ -1 then 1 else if (2 : ℚ) ≤ 0 then 0 else 2 / (2 - (-1)) :=
  claim_C1_probability_three_branch ⟨-1, 2⟩ (by norm_num)

/-- Counterexample for C1 as stated: on the straddling interval
`{l := -3/4, r := 3/4}` (which has `l ≤ r`, `l < 0 < r`), the
`calculateProbability` of `part_000` returns `3/10`, not the three-branch
value `r / (r - l) = 1/2` that the `App.tsx` version returns. -/
theorem claim_C1_counterexample :
    (-3/4 : ℚ) ≤ 3/4 ∧ ¬ (0 ≤ (-3/4 : ℚ)) ∧ ¬ ((3/4 : ℚ) ≤ 0) ∧
    calculateProbabilityClosed ⟨-3/4, 3/4⟩ = 3/10 ∧
    calculateProbability ⟨-3/4, 3/4⟩ = (3/4 : ℚ) / (3/4 - (-3/4)) ∧
    (3/10 : ℚ) ≠ (3/4 : ℚ) / (3/4 - (-3/4)) := by
  refine ⟨by norm_num, by norm_num, by norm_num, ?_, ?_, by norm_num⟩
  · norm_num [calculateProbabilityClosed]
  · norm_num [calculateProbability]

/-- C10 (implicit): for every trapezoid with `a ≤ b ≤ c ≤ d` and every
`alpha` in `[0, 1]`, the alpha-cut interval returned by
`getIntervalFromTrapeze` satisfies `l ≤ r`. -/
theorem claim_C10_alpha_cut_well_formed (T : Trapeze) (alpha : ℚ)
    (hab : T.a ≤ T.b) (hbc : T.b ≤ T.c) (hcd : T.c ≤ T.d)
    (h0 : 0 ≤ alpha) (h1 : alpha ≤ 1) :
    (getIntervalFromTrapeze T alpha).l ≤ (getIntervalFromTrapeze T alpha).r := by
  unfold getIntervalFromTrapeze
  simp only
  have h2 : alpha * T.b ≤ alpha * T.c := mul_le_mul_of_nonneg_left hbc h0
  have h3 : (1 - alpha) * T.a ≤ (1 - alpha) * T.d :=
    mul_le_mul_of_nonneg_left (hab.trans (hbc.trans hcd)) (by linarith)
  linarith

/-- Witness for C10 at the concrete trapezoid `{0, 1, 2, 3}` and
`alpha = 1/2`. -/
theorem claim_C10_alpha_cut_well_formed_witness :
    (getIntervalFromTrapeze ⟨0, 1, 2, 3⟩ (1/2)).l ≤
      (getIntervalFromTrapeze ⟨0, 1, 2, 3⟩ (1/2)).r :=
  claim_C10_alpha_cut_well_formed ⟨0, 1, 2, 3⟩ (1/2) (by norm_num) (by norm_num)
    (by norm_num) (by norm_num) (by norm_num)

/-- C8: the end-to-end scenario on the five-term registry: `from=Low, to=High`
expands to `[Low, Medium, High]`, aggregates to the trapezoid
`{-1, -1/2, 1/2, 1}`, alpha-cuts at `1/2` to `{-3/4, 3/4}`, and scores `1/2`
under the first (three-branch) probability formula. -/
theorem claim_C8_scenario :
    expandCell (scenarioTerms.map LinguisticTerm.shortName)
        ⟨some "Low", some "High"⟩ = ["Low", "Medium", "High"] ∧
    getTrapezeFromLTSets ["Low", "Medium", "High"] scenarioTerms =
      some ⟨-1, -1/2, 1/2, 1⟩ ∧
    getIntervalFromTrapeze ⟨-1, -1/2, 1/2, 1⟩ (1/2) = ⟨-3/4, 3/4⟩ ∧
    calculateProbability ⟨-3/4, 3/4⟩ = 1/2 := by
  refine ⟨by decide, ?_, ?_, ?_⟩
  · have hres : resolvedTris ["Low", "Medium", "High"] scenarioTerms =
        [⟨-1, -1/2, 0⟩, ⟨-1/2, 0, 1/2⟩, ⟨0, 1/2, 1⟩] := by rfl
    rw [getTrapezeFromLTSets, hres]
    simp only [List.map, listMinQ, listMaxQ, List.foldl, orderTriangular,
      Option.some.injEq, Trapeze.mk.injEq]
    norm_num [min_def, max_def]
  · rw [getIntervalFromTrapeze]
    simp only [Interval.mk.injEq]
    norm_num
  · norm_num [calculateProbability]

/-- Counterexample for C3 as stated: the crisp judgment `from = to = "X"`
against the registry `["A"]` has an unresolved short name, yet interval
expansion yields the one-element sequence `["X"]`, not the empty sequence
(the crisp branch of the code returns `[from]` without a registry lookup). -/
theorem claim_C3_counterexample :
    indexOfName ["A"] "X" = none ∧
    expandCell ["A"] ⟨some "X", some "X"⟩ = ["X"] ∧
    (["X"] : List String) ≠ [] :=
  ⟨by decide, by decide, by decide⟩

/-- C3 (amended): during interval expansion, every unfilled cell yields the
empty term sequence, as does every two-sided range (`from ≠ to`) with an
unresolved endpoint and every one-sided judgment with an unresolved
endpoint; but a crisp judgment (`from = to`) yields the singleton `[from]`
without consulting the registry, even when the short name is unresolved. -/
theorem claim_C3_unresolved_yields_empty (names : List String) (f t : String) :
    expandCell names ⟨none, none⟩ = [] ∧
    (f ≠ t → indexOfName names f = none ∨ indexOfName names t = none →
      expandCell names ⟨some f, some t⟩ = []) ∧
    (indexOfName names f = none → expandCell names ⟨some f, none⟩ = []) ∧
    (indexOfName names t = none → expandCell names ⟨none, some t⟩ = []) ∧
    expandCell names ⟨some f, some f⟩ = [f] := by
  refine ⟨rfl, ?_, ?_, ?_, ?_⟩
  · intro hft hnone
    simp only [expandCell]
    rw [if_neg hft]
    rcases hnone with h | h
    · rw [h]
    · rw [h]
      cases hf : indexOfName names f <;> rfl
  · intro h
    simp only [expandCell]
    rw [h]
  · intro h
    simp only [expandCell]
    rw [h]
  · simp [expandCell]

/-- Witness for C3 (amended) at the registry `["A"]` and the unresolved
two-sided judgment `from = "B", to = "C"`. -/
theorem claim_C3_unresolved_yields_empty_witness :
    expandCell ["A"] ⟨some "B", some "C"⟩ = [] :=
  (claim_C3_unresolved_yields_empty ["A"] "B" "C").2.1 (by decide)
    (Or.inl (by decide))

/-- C4: for every "within" judgment whose two resolved endpoints sit at
registry positions `i ≤ j` (in either UI order of `from`/`to`), the expanded
set is exactly the registry slice `[i..j]` and has `j - i + 1` elements. -/
theorem claim_C4_within_slice (names : List String) (f t : String) (i j : Nat)
    (hft : f ≠ t) (hf : indexOfName names f = some i)
    (ht : indexOfName names t = some j) (hij : i ≤ j) :
    expandCell names ⟨some f, some t⟩ = (names.take (j + 1)).drop i ∧
    expandCell names ⟨some t, some f⟩ = (names.take (j + 1)).drop i ∧
    ((names.take (j + 1)).drop i).length = j - i + 1 := by
  have hjlen : j < names.length := indexOfName_lt_length ht
  refine ⟨?_, ?_, ?_⟩
  · simp only [expandCell, hf, ht, if_neg hft]
    rw [min_eq_left hij, max_eq_right hij]
  · simp only [expandCell, hf, ht, if_neg (Ne.symm hft)]
    rw [min_eq_right hij, max_eq_left hij]
  · rw [List.length_drop, List.length_take,
      min_eq_left (by omega : j + 1 ≤ names.length)]
    omega

/-- Witness for C4 at the registry `["a", "b", "c"]` with endpoints at
positions 0 and 2. -/
theorem claim_C4_within_slice_witness :
    expandCell ["a", "b", "c"] ⟨some "a", some "c"⟩ =
      ((["a", "b", "c"] : List String).take 3).drop 0 ∧
    expandCell ["a", "b", "c"] ⟨some "c", some "a"⟩ =
      ((["a", "b", "c"] : List String).take 3).drop 0 ∧
    (((["a", "b", "c"] : List String).take 3).drop 0).length = 2 - 0 + 1 :=
  claim_C4_within_slice ["a", "b", "c"] "a" "c" 0 2 (by decide) (by decide)
    (by decide) (by decide)

/-- The `lefts` array of `getTrapezeFromLTSets` (line 157): the left
components of the canonicalized triangular numbers of the resolved terms. -/
def canonLefts (ltShortNames : List String) (allTerms : List LinguisticTerm) :
    List ℚ :=
  ((resolvedTris ltShortNames allTerms).map orderTriangular).map
    TriangularNumber.left

/-- The `middles` array of `getTrapezeFromLTSets` (line 158). -/
def canonMiddles (ltShortNames : List String) (allTerms : List LinguisticTerm) :
    List ℚ :=
  ((resolvedTris ltShortNames allTerms).map orderTriangular).map
    TriangularNumber.middle

/-- The `rights` array of `getTrapezeFromLTSets` (line 159). -/
def canonRights (ltShortNames : List String) (allTerms : List LinguisticTerm) :
    List ℚ :=
  ((resolvedTris ltShortNames allTerms).map orderTriangular).map
    TriangularNumber.right

lemma forall₂_map_le (g h : TriangularNumber → ℚ) (hgh : ∀ u, g u ≤ h u)
    (l : List TriangularNumber) :
    List.Forall₂ (· ≤ ·) (l.map g) (l.map h) := by
  induction l with
  | nil => exact List.Forall₂.nil
  | cons x xs ih => exact List.Forall₂.cons (hgh x) ih

/-- C5: whenever `getTrapezeFromLTSets` returns a trapezoid, its components
are the minimum of the canonicalized lefts, the minimum and maximum of the
canonicalized middles, and the maximum of the canonicalized rights, and they
satisfy `a ≤ b ≤ c ≤ d`; whenever at least one term resolves a trapezoid is
returned; and when nothing resolves the cell gets the zero trapezoid. -/
theorem claim_C5_trapeze_aggregation (ltShortNames : List String)
    (allTerms : List LinguisticTerm) :
    (∀ T, getTrapezeFromLTSets ltShortNames allTerms = some T →
      (T.a ∈ canonLefts ltShortNames allTerms ∧
        ∀ x ∈ canonLefts ltShortNames allTerms, T.a ≤ x) ∧
      (T.b ∈ canonMiddles ltShortNames allTerms ∧
        ∀ x ∈ canonMiddles ltShortNames allTerms, T.b ≤ x) ∧
      (T.c ∈ canonMiddles ltShortNames allTerms ∧
        ∀ x ∈ canonMiddles ltShortNames allTerms, x ≤ T.c) ∧
      (T.d ∈ canonRights ltShortNames allTerms ∧
        ∀ x ∈ canonRights ltShortNames allTerms, x ≤ T.d) ∧
      T.a ≤ T.b ∧ T.b ≤ T.c ∧ T.c ≤ T.d) ∧
    (∀ tri rest, resolvedTris ltShortNames allTerms = tri :: rest →
      (getTrapezeFromLTSets ltShortNames allTerms).isSome = true) ∧
    (resolvedTris ltShortNames allTerms = [] →
      cellTrapeze ltShortNames allTerms = ⟨0, 0, 0, 0⟩) := by
  refine ⟨?_, ?_, ?_⟩
  · intro T hT
    cases ltShortNames with
    | nil => simp [getTrapezeFromLTSets] at hT
    | cons n ns =>
        simp only [getTrapezeFromLTSets] at hT
        cases hres : resolvedTris (n :: ns) allTerms with
        | nil =>
            rw [hres] at hT
            simp at hT
        | cons tri rest =>
            rw [hres] at hT
            simp only [Option.some.injEq] at hT
            subst hT
            simp only [canonLefts, canonMiddles, canonRights, hres, List.map]
            refine ⟨⟨?_, ?_⟩, ⟨?_, ?_⟩, ⟨?_, ?_⟩, ⟨?_, ?_⟩, ?_, ?_, ?_⟩
            · exact listMinQ_mem _ _
            · intro x hx
              exact listMinQ_le_of_mem _ x _ hx
            · exact listMinQ_mem _ _
            · intro x hx
              exact listMinQ_le_of_mem _ x _ hx
            · exact listMaxQ_mem _ _
            · intro x hx
              exact le_listMaxQ_of_mem _ x _ hx
            · exact listMaxQ_mem _ _
            · intro x hx
              exact le_listMaxQ_of_mem _ x _ hx
            · rw [List.map_map, List.map_map]
              exact listMinQ_mono _ _ _ _ (orderTriangular_left_le_middle tri)
                (forall₂_map_le _ _ (fun u => orderTriangular_left_le_middle u) rest)
            · exact listMinQ_le_listMaxQ _ _
            · rw [List.map_map, List.map_map]
              exact listMaxQ_mono _ _ _ _ (orderTriangular_middle_le_right tri)
                (forall₂_map_le _ _ (fun u => orderTriangular_middle_le_right u) rest)
  · intro tri rest hres
    cases ltShortNames with
    | nil => simp [resolvedTris] at hres
    | cons n ns => simp [getTrapezeFromLTSets, hres]
  · intro hres
    cases ltShortNames with
    | nil => rfl
    | cons n ns => simp [cellTrapeze, getTrapezeFromLTSets, hres]

/-- Witness for C5: the scenario cell `[Low, Medium, High]` resolves to the
trapezoid `{-1, -1/2, 1/2, 1}` whose components satisfy the min/max
characterization and the ordering chain, while an unresolvable cell gets the
zero trapezoid. -/
theorem claim_C5_trapeze_aggregation_witness :
    (((⟨-1, -1/2, 1/2, 1⟩ : Trapeze).a ∈
        canonLefts ["Low", "Medium", "High"] scenarioTerms ∧
      ∀ x ∈ canonLefts ["Low", "Medium", "High"] scenarioTerms,
        (⟨-1, -1/2, 1/2, 1⟩ : Trapeze).a ≤ x) ∧
    ((⟨-1, -1/2, 1/2, 1⟩ : Trapeze).b ∈
        canonMiddles ["Low", "Medium", "High"] scenarioTerms ∧
      ∀ x ∈ canonMiddles ["Low", "Medium", "High"] scenarioTerms,
        (⟨-1, -1/2, 1/2, 1⟩ : Trapeze).b ≤ x) ∧
    ((⟨-1, -1/2, 1/2, 1⟩ : Trapeze).c ∈
        canonMiddles ["Low", "Medium", "High"] scenarioTerms ∧
      ∀ x ∈ canonMiddles ["Low", "Medium", "High"] scenarioTerms,
        x ≤ (⟨-1, -1/2, 1/2, 1⟩ : Trapeze).c) ∧
    ((⟨-1, -1/2, 1/2, 1⟩ : Trapeze).d ∈
        canonRights ["Low", "Medium", "High"] scenarioTerms ∧
      ∀ x ∈ canonRights ["Low", "Medium", "High"] scenarioTerms,
        x ≤ (⟨-1, -1/2, 1/2, 1⟩ : Trapeze).d) ∧
    (⟨-1, -1/2, 1/2, 1⟩ : Trapeze).a ≤ (⟨-1, -1/2, 1/2, 1⟩ : Trapeze).b ∧
    (⟨-1, -1/2, 1/2, 1⟩ : Trapeze).b ≤ (⟨-1, -1/2, 1/2, 1⟩ : Trapeze).c ∧
    (⟨-1, -1/2, 1/2, 1⟩ : Trapeze).c ≤ (⟨-1, -1/2, 1/2, 1⟩ : Trapeze).d) ∧
    cellTrapeze ["nope"] scenarioTerms = ⟨0, 0, 0, 0⟩ := by
  have h : getTrapezeFromLTSets ["Low", "Medium", "High"] scenarioTerms =
      some ⟨-1, -1/2, 1/2, 1⟩ := by
    have hres : resolvedTris ["Low", "Medium", "High"] scenarioTerms =
        [⟨-1, -1/2, 0⟩, ⟨-1/2, 0, 1/2⟩, ⟨0, 1/2, 1⟩] := by rfl
    rw [getTrapezeFromLTSets, hres]
    simp only [List.map, listMinQ, listMaxQ, List.foldl, orderTriangular,
      Option.some.injEq, Trapeze.mk.injEq]
    norm_num [min_def, max_def]
  exact
    ⟨(claim_C5_trapeze_aggregation ["Low", "Medium", "High"] scenarioTerms).1
        ⟨-1, -1/2, 1/2, 1⟩ h,
      (claim_C5_trapeze_aggregation ["nope"] scenarioTerms).2.2 rfl⟩

/-- C9: interval expansion is refused — the state is returned unchanged, so
no derived artifact moves — whenever some judgment cell has neither `from`
nor `to` set, or the term registry is empty. -/
theorem claim_C9_expansion_refused (s : AppState)
    (h : (∃ row ∈ s.tableData, ∃ cell ∈ row,
        cell.fromTerm = none ∧ cell.toTerm = none) ∨ s.terms = []) :
    handleTransformToIntervals s = s := by
  have hcond : ¬ (isAllCellsFilled s.tableData = true) ∨ s.terms.length = 0 := by
    rcases h with ⟨row, hrow, cell, hcell, hfrom, hto⟩ | h
    · left
      intro hall
      rw [isAllCellsFilled, List.all_eq_true] at hall
      have h1 := hall row hrow
      rw [List.all_eq_true] at h1
      have h2 := h1 cell hcell
      rw [hfrom, hto] at h2
      simp at h2
    · right
      rw [h]
      rfl
  rw [handleTransformToIntervals, if_pos hcond]

/-- Witness for C9: a state whose single cell is unfilled (and whose registry
is empty) is left untouched by `handleTransformToIntervals`. -/
theorem claim_C9_expansion_refused_witness :
    handleTransformToIntervals
        ⟨[], [[⟨none, none⟩]], [], [], false, false, [], none⟩ =
      ⟨[], [[⟨none, none⟩]], [], [], false, false, [], none⟩ :=
  claim_C9_expansion_refused _ (Or.inr rfl)

/-- Counterexample for C2 as stated: on the two-criteria row
`[{-1,-1,-1,-1}, {1,1,1,1}]` at `alpha = 1/2`, the `generalized` branch of
the `handleCalculateMethod` in `App.tsx` produces the interval `{0, 0}` (it
averages the trapezoids componentwise), while alpha-cutting the
min/min/max/max envelope of the row would give `{-1, 1}`: the `App.tsx`
generalized method does not alpha-cut the envelope trapezoid. -/
theorem claim_C2_counterexample :
    (generalizedAvgResult [⟨-1, -1, -1, -1⟩, ⟨1, 1, 1, 1⟩] 2 (1/2)).1 =
      ⟨0, 0⟩ ∧
    getIntervalFromTrapeze
        (combineGeneralized ⟨-1, -1, -1, -1⟩ [⟨1, 1, 1, 1⟩]) (1/2) =
      ⟨-1, 1⟩ ∧
    (⟨0, 0⟩ : Interval) ≠ ⟨-1, 1⟩ := by
  refine ⟨?_, ?_, ?_⟩
  · simp only [generalizedAvgResult, List.foldl, getIntervalFromTrapeze,
      Interval.mk.injEq]
    norm_num
  · simp only [combineGeneralized, listMinQ, listMaxQ, List.map, List.foldl,
      getIntervalFromTrapeze, Interval.mk.injEq]
    norm_num [min_def, max_def]
  · intro hcontra
    rw [Interval.mk.injEq] at hcontra
    exact absurd hcontra.1 (by norm_num)

/-- C2 (amended): in the `part_000` implementation of
`handleCalculateMethod`, the `generalized` method combines each alternative's
per-criterion trapezoids elementwise into the envelope trapezoid whose `a` is
the minimum of the `a_j`, `b` the minimum of the `b_j`, `c` the maximum of
the `c_j` and `d` the maximum of the `d_j`, then alpha-cuts that envelope and
scores the resulting interval; the `App.tsx` implementation instead averages
the trapezoid components before alpha-cutting. -/
theorem claim_C2_generalized_envelope (trap0 : Trapeze) (rest : List Trapeze)
    (alpha : ℚ) :
    ∃ T : Trapeze,
      (T.a ∈ (trap0 :: rest).map Trapeze.a ∧
        ∀ x ∈ (trap0 :: rest).map Trapeze.a, T.a ≤ x) ∧
      (T.b ∈ (trap0 :: rest).map Trapeze.b ∧
        ∀ x ∈ (trap0 :: rest).map Trapeze.b, T.b ≤ x) ∧
      (T.c ∈ (trap0 :: rest).map Trapeze.c ∧
        ∀ x ∈ (trap0 :: rest).map Trapeze.c, x ≤ T.c) ∧
      (T.d ∈ (trap0 :: rest).map Trapeze.d ∧
        ∀ x ∈ (trap0 :: rest).map Trapeze.d, x ≤ T.d) ∧
      generalizedEnvelopeResult (trap0 :: rest) alpha =
        some (getIntervalFromTrapeze T alpha,
          calculateProbabilityClosed (getIntervalFromTrapeze T alpha)) := by
  refine ⟨combineGeneralized trap0 rest, ?_, ?_, ?_, ?_, rfl⟩
  · simp only [combineGeneralized, List.map]
    exact ⟨listMinQ_mem _ _, fun x hx => listMinQ_le_of_mem _ x _ hx⟩
  · simp only [combineGeneralized, List.map]
    exact ⟨listMinQ_mem _ _, fun x hx => listMinQ_le_of_mem _ x _ hx⟩
  · simp only [combineGeneralized, List.map]
    exact ⟨listMaxQ_mem _ _, fun x hx => le_listMaxQ_of_mem _ x _ hx⟩
  · simp only [combineGeneralized, List.map]
    exact ⟨listMaxQ_mem _ _, fun x hx => le_listMaxQ_of_mem _ x _ hx⟩

/-- Witness for C2 (amended) on the concrete two-criteria row
`[{-1,-1,-1,-1}, {1,1,1,1}]` at `alpha = 1/2`. -/
theorem claim_C2_generalized_envelope_witness :
    ∃ T : Trapeze,
      (T.a ∈ [(⟨-1, -1, -1, -1⟩ : Trapeze), ⟨1, 1, 1, 1⟩].map Trapeze.a ∧
        ∀ x ∈ [(⟨-1, -1, -1, -1⟩ : Trapeze), ⟨1, 1, 1, 1⟩].map Trapeze.a,
          T.a ≤ x) ∧
      (T.b ∈ [(⟨-1, -1, -1, -1⟩ : Trapeze), ⟨1, 1, 1, 1⟩].map Trapeze.b ∧
        ∀ x ∈ [(⟨-1, -1, -1, -1⟩ : Trapeze), ⟨1, 1, 1, 1⟩].map Trapeze.b,
          T.b ≤ x) ∧
      (T.c ∈ [(⟨-1, -1, -1, -1⟩ : Trapeze), ⟨1, 1, 1, 1⟩].map Trapeze.c ∧
        ∀ x ∈ [(⟨-1, -1, -1, -1⟩ : Trapeze), ⟨1, 1, 1, 1⟩].map Trapeze.c,
          x ≤ T.c) ∧
      (T.d ∈ [(⟨-1, -1, -1, -1⟩ : Trapeze), ⟨1, 1, 1, 1⟩].map Trapeze.d ∧
        ∀ x ∈ [(⟨-1, -1, -1, -1⟩ : Trapeze), ⟨1, 1, 1, 1⟩].map Trapeze.d,
          x ≤ T.d) ∧
      generalizedEnvelopeResult [⟨-1, -1, -1, -1⟩, ⟨1, 1, 1, 1⟩] (1/2) =
        some (getIntervalFromTrapeze T (1/2),
          calculateProbabilityClosed (getIntervalFromTrapeze T (1/2))) :=
  claim_C2_generalized_envelope ⟨-1, -1, -1, -1⟩ [⟨1, 1, 1, 1⟩] (1/2)

end Zotoi
